import Mathlib

/-!
Shallow embedding of the conversation core of the recto-backend repository:
`src/agent/chatbot.py` (thread-id composition, turn generation through a
LangGraph graph with a Postgres checkpointer, history projection, session
listing) and the `/chats` endpoint of `src/main.py`.

Python strings are `String` (reasoned about through their `List Char` data),
Python dicts of string keys/values are association lists, the LangChain
message-content union `str | list[...]` is the tagged type `Content`, and a
raised exception is `none` / an `Except.error` carrying the exception text.
The durable checkpoint database is an association list from thread id to the
ordered message list of that thread.
-/

set_option autoImplicit false

namespace Recto

/-- Message roles: `HumanMessage`, `AIMessage`, `SystemMessage`. -/
inductive Role where
  | user
  | assistant
  | system
deriving DecidableEq, Repr

/-- One element of a LangChain structured-content list: either a plain string
or a dict of string fields (e.g. `type`, `text`). -/
inductive Part where
  | str (s : String)
  | dict (kvs : List (String × String))
deriving DecidableEq, Repr

/-- LangChain message content: a plain string or an ordered list of parts. -/
inductive Content where
  | text (s : String)
  | parts (ps : List Part)
deriving DecidableEq, Repr

/-- One stored conversation message. -/
structure Msg where
  role : Role
  content : Content
deriving DecidableEq, Repr

/-- Does `pat` occur at the head of `l`? (helper for Python substring tests). -/
def beginsWith : List Char → List Char → Bool
  | [], _ => true
  | _ :: _, [] => false
  | p :: ps, c :: ts => p == c && beginsWith ps ts

/-- Python `pat in s` for strings: substring containment. -/
def containsSeq : List Char → List Char → Bool
  | pat, [] => beginsWith pat []
  | pat, c :: ts => beginsWith pat (c :: ts) || containsSeq pat ts

/-- Python `'text' in p` (chatbot.py line 122): key membership when `p` is a
dict, substring containment when `p` is a plain string. -/
def partHasText : Part → Bool
  | .str s => containsSeq "text".data s.data
  | .dict kvs => (List.lookup "text" kvs).isSome

/-- Python `p["text"]`: field access on a dict; on a plain string it raises
`TypeError` (string indices must be integers), modelled as `none`. -/
def partIndexText : Part → Option String
  | .str _ => none
  | .dict kvs => List.lookup "text" kvs

/-- Python `''.join(p['text'] for p in content if 'text' in p)` (chatbot.py
lines 122 and 163): `none` models the `TypeError` raised when a part passing
the `'text' in p` test is a plain string. -/
def joinTexts : List Part → Option String
  | [] => some ""
  | p :: ps =>
    if partHasText p then
      match partIndexText p, joinTexts ps with
      | some t, some rest => some (t ++ rest)
      | _, _ => none
    else joinTexts ps

/-- The content-normalization branch of `chat_with_agent` (chatbot.py lines
120-127): list content is flattened by `joinTexts`, anything else goes
through `str(content)`. -/
def cwaNormalize : Content → Option String
  | .parts l => joinTexts l
  | .text s => some s

/-- The content-normalization branch of `get_conversation_history` (chatbot.py
lines 161-165); the Python source duplicates the exact same logic as in
`chat_with_agent`. -/
def histNormalize : Content → Option String
  | .parts l => joinTexts l
  | .text s => some s

/-- The durable checkpoint store: thread id to ordered message list. -/
abbrev Store := List (String × List Msg)

/-- Messages stored for a thread id; an unseen thread is the empty history. -/
def loadThread : Store → String → List Msg
  | [], _ => []
  | (k, ms) :: rest, tid => if k = tid then ms else loadThread rest tid

/-- Durably append one message at the end of a thread's sequence. -/
def appendOne : Store → String → Msg → Store
  | [], tid, m => [(tid, [m])]
  | (k, ms) :: rest, tid, m =>
    if k = tid then (k, ms ++ [m]) :: rest else (k, ms) :: appendOne rest tid m

/-- The thread-id f-string `f'{user_id}: {session_id}'` (chatbot.py lines 108
and 146). -/
def unique_id (user_id session_id : String) : String :=
  user_id ++ ": " ++ session_id

/-- The fixed system directive `sys_prompt` (chatbot.py line 28). Its text is
opaque configuration (spec section 9); no claim depends on the exact wording,
so it is abbreviated here. -/
def sys_prompt : Msg :=
  ⟨Role.system, Content.text "generative graphic designer directive"⟩

/-- Graph node `chat_node` (chatbot.py lines 76-81): prepend the system prompt to the
state's messages and invoke the llm. The `llm` parameter abstracts the
generative backend call `llm.invoke` (including its configured automatic
retries); it returns the assistant content, or the text of the raised
exception. -/
def chat_node (llm : List Msg → Except String Content) (messages : List Msg) :
    Except String Msg :=
  match llm (sys_prompt :: messages) with
  | Except.error e => Except.error e
  | Except.ok c => Except.ok ⟨Role.assistant, c⟩

/-- Exception kinds that can escape `graph.invoke`. -/
inductive Err where
  | backend (msg : String)
  | storage (msg : String)
deriving DecidableEq, Repr

/-- Python `str(e)` on an escaped exception. -/
def errStr : Err → String
  | .backend m => m
  | .storage m => m

/-- Exception text of an unavailable checkpoint database. -/
def storageExcMsg : String := "StorageUnavailable"

/-- Model of `graph.invoke({"messages": [inbound]}, config)` on the compiled
graph of chatbot.py lines 85-92: a `StateGraph` with the single node
`chat_node` and a `PostgresSaver` checkpointer over an autocommit connection.
LangGraph with a checkpointer durably saves a checkpoint of the input update
(the inbound message merged into the `messages` channel by `add_messages`)
before the node executes, and saves another checkpoint after the superstep;
when the node raises, checkpoints already written remain. Hence the inbound
message is persisted first, and the assistant message is persisted only when
the backend call returns; `storageUp` models availability of the checkpoint
database (when it is down, the write raises and nothing is persisted).
Returns the resulting store together with the final `messages` channel value
(what the Python code reads as `reply['messages']`) or the escaped
exception. -/
def graphInvoke (storageUp : Bool) (llm : List Msg → Except String Content)
    (st : Store) (tid : String) (inbound : Msg) :
    Store × Except Err (List Msg) :=
  if storageUp then
    let st1 := appendOne st tid inbound
    match chat_node llm (loadThread st1 tid) with
    | Except.error e => (st1, Except.error (Err.backend e))
    | Except.ok aiMsg =>
      let st2 := appendOne st1 tid aiMsg
      (st2, Except.ok (loadThread st2 tid))
  else (st, Except.error (Err.storage storageExcMsg))

/-- Exception text of Python's `TypeError` raised by `p['text']` on a str. -/
def typeErrorMsg : String := "string indices must be integers"

/-- Exception text of Python's `IndexError` on `reply['messages'][-1]`. -/
def indexErrorMsg : String := "list index out of range"

/-- Python function `chat_with_agent` (chatbot.py lines 99-130): build the thread id, invoke
the graph with the inbound `HumanMessage`, normalize the last message's
content, and catch every exception as the string `'Error : ' + str(e)`.
Returns the response string together with the resulting store. -/
def chat_with_agent (storageUp : Bool) (llm : List Msg → Except String Content)
    (st : Store) (user_id session_id message : String) : String × Store :=
  let tid := unique_id user_id session_id
  let r := graphInvoke storageUp llm st tid ⟨Role.user, Content.text message⟩
  match r.2 with
  | Except.error e => ("Error : " ++ errStr e, r.1)
  | Except.ok msgs =>
    match msgs.getLast? with
    | none => ("Error : " ++ indexErrorMsg, r.1)
    | some last =>
      match cwaNormalize last.content with
      | some text => (text, r.1)
      | none => ("Error : " ++ typeErrorMsg, r.1)

/-- One `{'role': ..., 'content': ...}` entry of the projected transcript. -/
structure HistEntry where
  role : String
  content : Content
deriving DecidableEq, Repr

/-- The projection loop of `get_conversation_history` (chatbot.py lines
153-170): `HumanMessage` becomes role `user` with content verbatim,
`AIMessage` becomes role `ai` with content flattened, anything else is
skipped; `none` models an exception escaping the loop (which discards every
entry built so far). -/
def projectLoop : List Msg → Option (List HistEntry)
  | [] => some []
  | m :: ms =>
    match m.role with
    | Role.user => (projectLoop ms).map (fun r => ⟨"user", m.content⟩ :: r)
    | Role.assistant =>
      match histNormalize m.content with
      | none => none
      | some t => (projectLoop ms).map (fun r => ⟨"ai", Content.text t⟩ :: r)
    | Role.system => projectLoop ms

/-- Python function `get_conversation_history` (chatbot.py lines 134-175): read the thread's
checkpointed messages via `graph.get_state` and project them; any exception
(projection `TypeError`, or the storage read failing) is caught and the empty
list returned. -/
def get_conversation_history (storageUp : Bool) (st : Store)
    (user_id session_id : String) : List HistEntry :=
  if storageUp then
    match projectLoop (loadThread st (unique_id user_id session_id)) with
    | some l => l
    | none => []
  else []

/-- SQL `LIKE` pattern matching (pattern, text), as used by the
`WHERE thread_id LIKE %s` query of `get_all_user_sessions` (chatbot.py lines
185-189): `%` matches any sequence, `_` matches one character, a backslash
escapes the following pattern character, anything else matches literally. -/
def likeMatch : List Char → List Char → Bool
  | [], t => t.isEmpty
  | p :: ps, t =>
    if p = '%' then (List.range (t.length + 1)).any (fun n => likeMatch ps (t.drop n))
    else if p = '_' then
      match t with
      | [] => false
      | _ :: ts => likeMatch ps ts
    else if p = '\\' then
      match ps with
      | [] => false
      | p2 :: ps2 =>
        match t with
        | [] => false
        | c :: ts => c == p2 && likeMatch ps2 ts
    else
      match t with
      | [] => false
      | c :: ts => c == p && likeMatch ps ts

/-- Prepend a character to the first component of a split result. -/
def consHead (c : Char) : List (List Char) → List (List Char)
  | [] => [[c]]
  | h :: tl => (c :: h) :: tl

/-- Scan helper for `splitCS`, structurally recursive on a fuel bound; the
fuel starts at the list length and always stays at least the length of the
remaining list, so the fuel-exhausted branch is never reached from
`splitCS`. -/
def splitCSAux : Nat → List Char → List (List Char)
  | _, [] => [[]]
  | 0, l => [l]
  | fuel + 1, c :: rest =>
    match rest with
    | [] => [[c]]
    | r :: rest' =>
      if c = ':' ∧ r = ' ' then [] :: splitCSAux fuel rest'
      else consHead c (splitCSAux fuel rest)

/-- Python `thread_id.split(': ')` (chatbot.py line 198), specialised to the
two-character separator colon-space: scan left to right, cutting at each
non-overlapping occurrence of the separator. -/
def splitCS (l : List Char) : List (List Char) := splitCSAux l.length l

/-- One `{'session_id': ..., 'preview': ...}` entry of the session listing. -/
structure SessionEntry where
  session_id : String
  preview : Content
deriving DecidableEq, Repr

/-- Python `history[0]['content'][:50]` (chatbot.py line 204): slicing a
string truncates it to its first 50 characters; slicing a list keeps its
first 50 elements. -/
def sliceTo50 : Content → Content
  | Content.text s => Content.text (String.mk (s.data.take 50))
  | Content.parts l => Content.parts (l.take 50)

/-- One iteration of the session loop of `get_all_user_sessions` (chatbot.py
lines 194-209): recover the session id as `thread_id.split(': ')[1]` (`none`
models the `IndexError` when the split has fewer than two components), fetch
the thread's projected history, and take the first entry's content truncated
to 50 characters as preview, or the literal `"New chat"` when the history is
empty. -/
def sessionFromThread (storageUp : Bool) (st : Store) (user_id : String)
    (tid : String) : Option SessionEntry :=
  match (splitCS tid.data)[1]? with
  | none => none
  | some sid =>
    some ⟨String.mk sid,
      match (get_conversation_history storageUp st user_id (String.mk sid))[0]? with
      | none => Content.text "New chat"
      | some h => sliceTo50 h.content⟩

/-- The session-building loop over the matched thread ids; `none` models an
exception escaping the loop, discarding every entry built so far. -/
def buildSessions (storageUp : Bool) (st : Store) (user_id : String) :
    List String → Option (List SessionEntry)
  | [] => some []
  | t :: ts =>
    match sessionFromThread storageUp st user_id t with
    | none => none
    | some e => (buildSessions storageUp st user_id ts).map (fun l => e :: l)

/-- Python function `get_all_user_sessions` (chatbot.py lines 176-215): `SELECT DISTINCT
thread_id FROM checkpoints WHERE thread_id LIKE '{user_id}:%'`, then one
session entry per matched thread id; every exception (storage unavailable,
or an `IndexError` while splitting a thread id) is caught and the empty list
returned. -/
def get_all_user_sessions (storageUp : Bool) (st : Store) (user_id : String) :
    List SessionEntry :=
  if storageUp then
    match buildSessions storageUp st user_id
        (((st.map Prod.fst).dedup).filter
          (fun t => likeMatch (user_id ++ ":%").data t.data)) with
    | some l => l
    | none => []
  else []

/-- Result of the `/chats` FastAPI handler: a 200 response carrying a
`ChatResponse` body, or an `HTTPException` with status 500. -/
inductive ChatsResult where
  | ok (user_id session_id response : String)
  | serverError (detail : String)
deriving DecidableEq, Repr

/-- The `POST /chats` handler (main.py lines 252-266). Because
`chat_with_agent` catches every exception internally and returns a string,
the handler's `except` branch (HTTP 500) is unreachable: the handler always
answers 200 with whatever string `chat_with_agent` produced as `response`. -/
def chats (storageUp : Bool) (llm : List Msg → Except String Content)
    (st : Store) (user_id session_id message : String) : ChatsResult × Store :=
  let r := chat_with_agent storageUp llm st user_id session_id message
  (ChatsResult.ok user_id session_id r.1, r.2)

/-- Modelled from the words of claim C4: the concatenation, in order, of the
text of exactly those parts tagged as text content (non-text parts dropped),
to be compared with the flattening rule the code actually implements. -/
def taggedTextConcat : List Part → String
  | [] => ""
  | Part.str _ :: rest => taggedTextConcat rest
  | Part.dict kvs :: rest =>
    if List.lookup "type" kvs = some "text" then
      match List.lookup "text" kvs with
      | some t => t ++ taggedTextConcat rest
      | none => taggedTextConcat rest
    else taggedTextConcat rest

/-- The concatenation of the `text` values of exactly those dict parts that
possess a `text` key, regardless of their `type` tag: what the code's
flattening computes on dict-only part lists. -/
def joinDictTexts : List (List (String × String)) → String
  | [] => ""
  | kvs :: rest =>
    match List.lookup "text" kvs with
    | some t => t ++ joinDictTexts rest
    | none => joinDictTexts rest

/-- Modelled from the words of claim C5: the per-message projection rule -
user messages verbatim, assistant messages flattened (undefined when the
flattening fails), system messages skipped. -/
def projEntry (m : Msg) : Option HistEntry :=
  match m.role with
  | Role.user => some ⟨"user", m.content⟩
  | Role.assistant =>
    match histNormalize m.content with
    | some t => some ⟨"ai", Content.text t⟩
    | none => none
  | Role.system => none

/-- A backend that answers with plain text. -/
def llmOk : List Msg → Except String Content :=
  fun _ => Except.ok (Content.text "OK")

/-- A backend whose call raises (e.g. a timeout). -/
def llmFail : List Msg → Except String Content :=
  fun _ => Except.error "timeout"

/-- A backend answering with a content list containing a plain-string part in
which `text` occurs as a substring. -/
def llmCrash : List Msg → Except String Content :=
  fun _ => Except.ok (Content.parts [Part.str "context"])

/-- A structured part that is not tagged as text content but carries a `text`
field. -/
def partImage : Part := Part.dict [("type", "image_url"), ("text", "ALT")]

/-- A store holding one ordinary completed turn on thread `u: s`. -/
def stGood : Store :=
  [("u: s", [⟨Role.user, Content.text "hello"⟩,
             ⟨Role.assistant, Content.text "world"⟩])]

/-- A store holding one completed turn whose assistant content list contains
the plain-string part `"context"`. -/
def stCrash : Store :=
  [("u: s", [⟨Role.user, Content.text "hello"⟩,
             ⟨Role.assistant, Content.parts [Part.str "context"]⟩])]

/-! ## Store lemmas -/

theorem loadThread_appendOne_self (st : Store) (tid : String) (m : Msg) :
    loadThread (appendOne st tid m) tid = loadThread st tid ++ [m] := by
  induction st with
  | nil => simp [appendOne, loadThread]
  | cons kv rest ih =>
    obtain ⟨k, ms⟩ := kv
    by_cases h : k = tid <;> simp [appendOne, loadThread, h, ih]

theorem loadThread_appendOne_ne (st : Store) (tid t : String) (m : Msg)
    (h : t ≠ tid) : loadThread (appendOne st tid m) t = loadThread st t := by
  have h' : ¬ tid = t := fun hh => h hh.symm
  induction st with
  | nil => simp [appendOne, loadThread, h']
  | cons kv rest ih =>
    obtain ⟨k, ms⟩ := kv
    by_cases hk : k = tid
    · simp [appendOne, loadThread, hk, h']
    · simp [appendOne, loadThread, hk, ih]

/-! ## graph.invoke lemmas -/

theorem graphInvoke_ok (llm : List Msg → Except String Content) (st : Store)
    (tid : String) (inbound : Msg) (c : Content)
    (h : llm (sys_prompt :: (loadThread st tid ++ [inbound])) = Except.ok c) :
    graphInvoke true llm st tid inbound
      = (appendOne (appendOne st tid inbound) tid ⟨Role.assistant, c⟩,
         Except.ok (loadThread st tid ++ [inbound, ⟨Role.assistant, c⟩])) := by
  simp only [graphInvoke, chat_node, loadThread_appendOne_self, h, if_true]
  simp [loadThread_appendOne_self, List.append_assoc]

theorem graphInvoke_err (llm : List Msg → Except String Content) (st : Store)
    (tid : String) (inbound : Msg) (e : String)
    (h : llm (sys_prompt :: (loadThread st tid ++ [inbound])) = Except.error e) :
    graphInvoke true llm st tid inbound
      = (appendOne st tid inbound, Except.error (Err.backend e)) := by
  simp [graphInvoke, chat_node, loadThread_appendOne_self, h]

theorem chat_with_agent_err (llm : List Msg → Except String Content)
    (st : Store) (u s m e : String)
    (h : llm (sys_prompt :: (loadThread st (unique_id u s)
          ++ [⟨Role.user, Content.text m⟩])) = Except.error e) :
    chat_with_agent true llm st u s m
      = ("Error : " ++ e, appendOne st (unique_id u s)
          ⟨Role.user, Content.text m⟩) := by
  simp [chat_with_agent, graphInvoke_err llm st (unique_id u s) _ e h, errStr]

theorem chat_with_agent_ok (llm : List Msg → Except String Content)
    (st : Store) (u s m : String) (c : Content)
    (h : llm (sys_prompt :: (loadThread st (unique_id u s)
          ++ [⟨Role.user, Content.text m⟩])) = Except.ok c) :
    chat_with_agent true llm st u s m
      = (match cwaNormalize c with
         | some text => text
         | none => "Error : " ++ typeErrorMsg,
         appendOne (appendOne st (unique_id u s) ⟨Role.user, Content.text m⟩)
           (unique_id u s) ⟨Role.assistant, c⟩) := by
  have hlast : (loadThread st (unique_id u s)
      ++ [⟨Role.user, Content.text m⟩, (⟨Role.assistant, c⟩ : Msg)]).getLast?
      = some ⟨Role.assistant, c⟩ := by
    rw [show loadThread st (unique_id u s)
        ++ [⟨Role.user, Content.text m⟩, (⟨Role.assistant, c⟩ : Msg)]
        = (loadThread st (unique_id u s) ++ [⟨Role.user, Content.text m⟩])
          ++ [(⟨Role.assistant, c⟩ : Msg)] by simp]
    exact List.getLast?_concat _
  simp only [chat_with_agent, graphInvoke_ok llm st (unique_id u s) _ c h, hlast]
  cases cwaNormalize c <;> rfl

/-! ## Claims C2, C3, C9 - turn persistence and validation -/

/-- C2 (counterexample): with an empty store and a backend whose call fails,
loading the thread after the failed attempt is NOT identical to before the
attempt - the inbound user message has been persisted. -/
theorem C2_counterexample :
    (chat_with_agent true llmFail [] "u" "s" "hi").1 = "Error : timeout"
    ∧ loadThread (chat_with_agent true llmFail [] "u" "s" "hi").2
        (unique_id "u" "s")
      ≠ loadThread ([] : Store) (unique_id "u" "s") := by
  decide

/-- C2 (amended): if the backend call fails during a turn, the thread's
stored history after the attempt equals the history before the attempt
extended by the inbound user message only (the input is checkpointed before
the node runs); the assistant message is never persisted and every other
thread is unchanged, and the caller receives the string `Error : ` followed
by the exception text. -/
theorem C2_failed_backend_persists_inbound
    (llm : List Msg → Except String Content) (st : Store) (u s m e : String)
    (hllm : llm (sys_prompt :: (loadThread st (unique_id u s)
        ++ [⟨Role.user, Content.text m⟩])) = Except.error e) :
    (chat_with_agent true llm st u s m).1 = "Error : " ++ e
    ∧ loadThread (chat_with_agent true llm st u s m).2 (unique_id u s)
        = loadThread st (unique_id u s) ++ [⟨Role.user, Content.text m⟩]
    ∧ ∀ t, t ≠ unique_id u s →
        loadThread (chat_with_agent true llm st u s m).2 t = loadThread st t := by
  rw [chat_with_agent_err llm st u s m e hllm]
  exact ⟨rfl, loadThread_appendOne_self _ _ _,
    fun t ht => loadThread_appendOne_ne _ _ _ _ ht⟩

/-- C2 (witness for the amended theorem at a concrete input). -/
theorem C2_witness :
    (chat_with_agent true llmFail [] "u" "s" "hi").1 = "Error : " ++ "timeout" :=
  (C2_failed_backend_persists_inbound llmFail [] "u" "s" "hi" "timeout" rfl).1

/-- C3: after a successful generate call on a thread, the stored history of
that thread equals the prior history extended by exactly two new messages -
the inbound user message followed by the new assistant message, in that
order - and the stored history of every other thread id is unchanged. -/
theorem C3_successful_turn_appends_two
    (llm : List Msg → Except String Content) (st : Store)
    (u s m : String) (c : Content)
    (hllm : llm (sys_prompt :: (loadThread st (unique_id u s)
        ++ [⟨Role.user, Content.text m⟩])) = Except.ok c) :
    loadThread (chat_with_agent true llm st u s m).2 (unique_id u s)
      = loadThread st (unique_id u s)
        ++ [⟨Role.user, Content.text m⟩, ⟨Role.assistant, c⟩]
    ∧ ∀ t, t ≠ unique_id u s →
        loadThread (chat_with_agent true llm st u s m).2 t = loadThread st t := by
  rw [chat_with_agent_ok llm st u s m c hllm]
  refine ⟨?_, fun t ht => ?_⟩
  · simp [loadThread_appendOne_self]
  · simp only []
    rw [loadThread_appendOne_ne _ _ _ _ ht, loadThread_appendOne_ne _ _ _ _ ht]

/-- C3 (witness at a concrete input). -/
theorem C3_witness :
    loadThread (chat_with_agent true llmOk [] "u" "s" "hi").2 (unique_id "u" "s")
      = loadThread ([] : Store) (unique_id "u" "s")
        ++ [⟨Role.user, Content.text "hi"⟩,
            ⟨Role.assistant, Content.text "OK"⟩] :=
  (C3_successful_turn_appends_two llmOk [] "u" "s" "hi" (Content.text "OK") rfl).1

/-- C9 (counterexample): a call with an empty `user_id` does NOT fail with a
validation error and does have side effects - the turn proceeds normally on
the thread id `: s`. -/
theorem C9_counterexample :
    (chat_with_agent true llmOk [] "" "s" "hi").1 = "OK"
    ∧ loadThread (chat_with_agent true llmOk [] "" "s" "hi").2 (unique_id "" "s")
        = [⟨Role.user, Content.text "hi"⟩,
           ⟨Role.assistant, Content.text "OK"⟩] := by
  decide

/-- C9 (amended): thread resolution performs no input validation at all - a
call with an empty `user_id` is accepted, composes the thread id by the same
concatenation rule, persists the turn there and returns the normalized
assistant text; resolution itself has no failure mode. -/
theorem C9_no_validation
    (llm : List Msg → Except String Content) (st : Store)
    (s m : String) (c : Content) (txt : String)
    (hllm : llm (sys_prompt :: (loadThread st (unique_id "" s)
        ++ [⟨Role.user, Content.text m⟩])) = Except.ok c)
    (hnorm : cwaNormalize c = some txt) :
    (chat_with_agent true llm st "" s m).1 = txt
    ∧ loadThread (chat_with_agent true llm st "" s m).2 (unique_id "" s)
        = loadThread st (unique_id "" s)
          ++ [⟨Role.user, Content.text m⟩, ⟨Role.assistant, c⟩] := by
  rw [chat_with_agent_ok llm st "" s m c hllm]
  refine ⟨?_, ?_⟩
  · simp [hnorm]
  · simp [loadThread_appendOne_self]

/-- C9 (witness for the amended theorem at a concrete input). -/
theorem C9_witness :
    (chat_with_agent true llmOk [] "" "s" "hi").1 = "OK" :=
  (C9_no_validation llmOk [] "s" "hi" (Content.text "OK") "OK" rfl rfl).1

/-! ## Claim C10 - the flattening crash -/

/-- C10: an assistant message whose stored content list contains the
plain-string part `"context"` (in which `text` occurs as a substring) makes
the flattening raise a `TypeError`: `get_conversation_history` returns the
empty list although the thread holds messages, and `chat_with_agent` on such
a backend response returns a string beginning `Error : `. -/
theorem C10_flatten_crash :
    containsSeq "text".data "context".data = true
    ∧ joinTexts [Part.str "context"] = none
    ∧ get_conversation_history true stCrash "u" "s" = []
    ∧ loadThread stCrash (unique_id "u" "s") ≠ []
    ∧ (chat_with_agent true llmCrash [] "u" "s" "hi").1
        = "Error : " ++ typeErrorMsg
    ∧ beginsWith "Error : ".data ("Error : " ++ typeErrorMsg).data = true := by
  decide

/-! ## Claim C7 - storage failure surfacing -/

/-- C7 (counterexample): with the checkpoint store unavailable, the `/chats`
handler still answers through the success constructor (HTTP 200 with a
`ChatResponse` body) whose response text is `Error : ` followed by the
exception text - a turn that could not be durably appended is reported
through the normal reply channel, not as a hard error. -/
theorem C7_counterexample :
    chats false llmOk [] "u" "s" "hi"
      = (ChatsResult.ok "u" "s" ("Error : " ++ storageExcMsg), ([] : Store)) := by
  decide

/-- C7 (amended): a storage failure during the turn-generation path is NOT a
hard error - `chat_with_agent` swallows it and the `/chats` handler returns a
200 response whose text begins `Error : ` - while a storage failure during
history or session listing degrades to an empty result. -/
theorem C7_degrade_everywhere :
    (∀ (llm : List Msg → Except String Content) (st : Store) (u s m : String),
        chats false llm st u s m
          = (ChatsResult.ok u s ("Error : " ++ storageExcMsg), st))
    ∧ (∀ (st : Store) (u s : String), get_conversation_history false st u s = [])
    ∧ (∀ (st : Store) (u : String), get_all_user_sessions false st u = []) :=
  ⟨fun _ _ _ _ _ => rfl, fun _ _ _ => rfl, fun _ _ => rfl⟩

/-! ## Claim C4 - assistant content normalization -/

/-- C4 (counterexample): a part carrying a `text` field but tagged
`type: image_url` is NOT dropped by the code's flattening - the returned
text is `ALT` although the concatenation of the parts tagged as text content
is empty. -/
theorem C4_counterexample :
    cwaNormalize (Content.parts [partImage]) = some "ALT"
    ∧ taggedTextConcat [partImage] = ""
    ∧ ("ALT" : String) ≠ "" := by
  decide

/-- C4 (amended): for every assistant response whose content is a list of
dict parts, the returned text is the concatenation, in order, of the `text`
values of exactly those parts that possess a `text` key (regardless of their
`type` tag); if the content is not a list it is returned as plain text
directly; and the Turn Generator and the History Projector apply the
identical rule. -/
theorem C4_flatten_rule :
    (∀ kvss : List (List (String × String)),
        cwaNormalize (Content.parts (kvss.map Part.dict))
          = some (joinDictTexts kvss))
    ∧ (∀ s : String, cwaNormalize (Content.text s) = some s)
    ∧ (∀ c : Content, cwaNormalize c = histNormalize c) := by
  refine ⟨?_, fun s => rfl, fun c => by cases c <;> rfl⟩
  intro kvss
  induction kvss with
  | nil => rfl
  | cons kvs rest ih =>
    simp only [cwaNormalize, List.map_cons] at ih ⊢
    cases h : List.lookup "text" kvs with
    | none =>
      simp [joinTexts, partHasText, partIndexText, h, joinDictTexts, ih]
    | some t =>
      simp [joinTexts, partHasText, partIndexText, h, joinDictTexts, ih]

/-! ## String lemmas for the thread-id composition -/

theorem unique_id_data (a b : String) :
    (unique_id a b).data = a.data ++ ':' :: ' ' :: b.data := by
  simp [unique_id, String.data_append]

theorem containsSeq_cons_false {pat : List Char} {c : Char} {ts : List Char}
    (h : containsSeq pat (c :: ts) = false) :
    beginsWith pat (c :: ts) = false ∧ containsSeq pat ts = false := by
  simpa [containsSeq, Bool.or_eq_false_iff] using h

theorem nosep_of_nocolon {l : List Char} (h : ':' ∉ l) :
    containsSeq [':', ' '] l = false := by
  induction l with
  | nil => rfl
  | cons c ts ih =>
    have hc : ¬(':' = c) := fun hh => h (hh ▸ List.mem_cons_self c ts)
    have hts : ':' ∉ ts := fun hh => h (List.mem_cons_of_mem c hh)
    simp [containsSeq, beginsWith, hc, ih hts]

theorem splitCSAux_fuel : ∀ (f₁ f₂ : Nat) (l : List Char),
    l.length ≤ f₁ → l.length ≤ f₂ → splitCSAux f₁ l = splitCSAux f₂ l := by
  intro f₁
  induction f₁ with
  | zero =>
    intro f₂ l hl _
    have : l = [] := List.eq_nil_of_length_eq_zero (Nat.le_zero.mp hl)
    subst this
    cases f₂ <;> rfl
  | succ f ih =>
    intro f₂ l h₁ h₂
    cases l with
    | nil => cases f₂ <;> rfl
    | cons c rest =>
      cases f₂ with
      | zero => simp at h₂
      | succ f' =>
        cases rest with
        | nil => rfl
        | cons r rest' =>
          simp only [List.length_cons] at h₁ h₂
          by_cases hc : c = ':' ∧ r = ' '
          · simp only [splitCSAux, if_pos hc]
            rw [ih f' rest' (by omega) (by omega)]
          · simp only [splitCSAux, if_neg hc]
            rw [ih f' (r :: rest') (by simp only [List.length_cons]; omega)
                  (by simp only [List.length_cons]; omega)]

theorem splitCS_cons (c r : Char) (rest' : List Char) :
    splitCS (c :: r :: rest')
      = if c = ':' ∧ r = ' ' then [] :: splitCS rest'
        else consHead c (splitCS (r :: rest')) := by
  by_cases hc : c = ':' ∧ r = ' '
  · rw [if_pos hc]
    show splitCSAux (rest'.length + 1 + 1) (c :: r :: rest') = [] :: splitCS rest'
    simp only [splitCSAux, if_pos hc]
    rw [splitCSAux_fuel (rest'.length + 1) rest'.length rest'
          (by omega) (by omega)]
    rfl
  · rw [if_neg hc]
    show splitCSAux (rest'.length + 1 + 1) (c :: r :: rest')
        = consHead c (splitCS (r :: rest'))
    simp only [splitCSAux, if_neg hc]
    rfl

theorem splitCS_append (u : List Char) (s : List Char)
    (hu : containsSeq [':', ' '] u = false) :
    splitCS (u ++ ':' :: ' ' :: s) = u :: splitCS s := by
  induction u with
  | nil =>
    show splitCS (':' :: ' ' :: s) = [] :: splitCS s
    rw [splitCS_cons, if_pos ⟨rfl, rfl⟩]
  | cons c u' ih =>
    obtain ⟨hb, h2⟩ := containsSeq_cons_false hu
    cases u' with
    | nil =>
      show splitCS (c :: ':' :: ' ' :: s) = [c] :: splitCS s
      have hne : ¬(c = ':' ∧ ':' = ' ') := fun hh => by simp at hh
      rw [splitCS_cons, if_neg hne, splitCS_cons, if_pos ⟨rfl, rfl⟩, consHead]
    | cons d u'' =>
      have hcd : ¬(c = ':' ∧ d = ' ') := by
        intro ⟨hc, hd⟩
        subst hc; subst hd
        simp [beginsWith] at hb
      show splitCS (c :: d :: (u'' ++ ':' :: ' ' :: s))
          = (c :: d :: u'') :: splitCS s
      have ihd := ih h2
      rw [show (d :: u'') ++ ':' :: ' ' :: s = d :: (u'' ++ ':' :: ' ' :: s)
            from rfl] at ihd
      rw [splitCS_cons, if_neg hcd, ihd, consHead]

theorem splitCS_nosep (l : List Char)
    (h : containsSeq [':', ' '] l = false) : splitCS l = [l] := by
  induction l with
  | nil => rfl
  | cons c rest ih =>
    obtain ⟨hb, h2⟩ := containsSeq_cons_false h
    cases rest with
    | nil => rfl
    | cons r rest' =>
      have hcr : ¬(c = ':' ∧ r = ' ') := by
        intro ⟨hc, hr⟩
        subst hc; subst hr
        simp [beginsWith] at hb
      rw [splitCS_cons, if_neg hcr, ih h2, consHead]

theorem colon_split {u₁ u₂ r₁ r₂ : List Char} (h₁ : ':' ∉ u₁) (h₂ : ':' ∉ u₂)
    (h : u₁ ++ ':' :: r₁ = u₂ ++ ':' :: r₂) : u₁ = u₂ ∧ r₁ = r₂ := by
  induction u₁ generalizing u₂ with
  | nil =>
    cases u₂ with
    | nil => exact ⟨rfl, by simpa using h⟩
    | cons c u₂' =>
      simp only [List.nil_append, List.cons_append, List.cons.injEq] at h
      refine absurd ?_ h₂
      rw [h.1]
      exact List.mem_cons_self c u₂'
  | cons c u₁' ih =>
    cases u₂ with
    | nil =>
      simp only [List.nil_append, List.cons_append, List.cons.injEq] at h
      refine absurd ?_ h₁
      rw [← h.1]
      exact List.mem_cons_self c u₁'
    | cons d u₂' =>
      simp only [List.cons_append, List.cons.injEq] at h
      have h₁' : ':' ∉ u₁' := fun hh => h₁ (List.mem_cons_of_mem c hh)
      have h₂' : ':' ∉ u₂' := fun hh => h₂ (List.mem_cons_of_mem d hh)
      obtain ⟨hu, hr⟩ := ih h₁' h₂' h.2
      exact ⟨by rw [h.1, hu], hr⟩

/-! ## Claim C1 - thread-id determinism and injectivity -/

/-- C1 (counterexample): the distinct pairs `("a", "b: c")` and
`("a: b", "c")` resolve to the identical thread id `a: b: c`. -/
theorem C1_counterexample :
    unique_id "a" "b: c" = unique_id "a: b" "c"
    ∧ ¬(("a" : String) = "a: b" ∧ ("b: c" : String) = "c") := by
  decide

/-- C1 (amended): thread-id resolution is deterministic (a pure function of
its two arguments), and it is injective provided the `user_id` component
does not contain the separator `: ` - for such pairs, equal thread ids force
equal user ids and equal session ids. -/
theorem C1_resolve_deterministic_injective :
    (∀ u s : String, unique_id u s = unique_id u s)
    ∧ ∀ u₁ s₁ u₂ s₂ : String,
        containsSeq ": ".data u₁.data = false →
        containsSeq ": ".data u₂.data = false →
        unique_id u₁ s₁ = unique_id u₂ s₂ → u₁ = u₂ ∧ s₁ = s₂ := by
  refine ⟨fun u s => rfl, fun u₁ s₁ u₂ s₂ h₁ h₂ h => ?_⟩
  have hd : u₁.data ++ ':' :: ' ' :: s₁.data
      = u₂.data ++ ':' :: ' ' :: s₂.data := by
    have := congrArg String.data h
    rwa [unique_id_data, unique_id_data] at this
  have hsplit := congrArg splitCS hd
  rw [splitCS_append _ _ h₁, splitCS_append _ _ h₂] at hsplit
  have hu : u₁.data = u₂.data := (List.cons.injEq _ _ _ _ ▸ hsplit).1
  have hueq : u₁ = u₂ := String.ext hu
  refine ⟨hueq, String.ext ?_⟩
  rw [hu] at hd
  have := List.append_cancel_left hd
  simpa using this

/-- C1 (witness for the amended theorem at a concrete input). -/
theorem C1_witness : ("a" : String) = "a" ∧ ("b" : String) = "b" :=
  C1_resolve_deterministic_injective.2 "a" "b" "a" "b"
    (by decide) (by decide) rfl

/-! ## SQL LIKE lemmas -/

theorem likeMatch_percent_end (t : List Char) : likeMatch ['%'] t = true := by
  show (List.range (t.length + 1)).any (fun n => likeMatch [] (t.drop n)) = true
  rw [List.any_eq_true]
  exact ⟨t.length, List.mem_range.mpr (Nat.lt_succ_self _),
    by rw [List.drop_length]; rfl⟩

theorem likeMatch_cons_plain_nil {c : Char} (hc1 : c ≠ '%') (hc2 : c ≠ '_')
    (hc3 : c ≠ '\\') (ps : List Char) :
    likeMatch (c :: ps) [] = false := by
  rw [likeMatch.eq_def]
  simp only [hc1, hc2, hc3, if_false]

theorem likeMatch_cons_plain_cons {c c' : Char} (hc1 : c ≠ '%') (hc2 : c ≠ '_')
    (hc3 : c ≠ '\\') (ps ts : List Char) :
    likeMatch (c :: ps) (c' :: ts) = (c' == c && likeMatch ps ts) := by
  rw [likeMatch.eq_def]
  simp only [hc1, hc2, hc3, if_false]

theorem likeMatch_plain_then_any (p : List Char) :
    ∀ t : List Char, (∀ c ∈ p, c ≠ '%' ∧ c ≠ '_' ∧ c ≠ '\\') →
      (likeMatch (p ++ ['%']) t = true ↔ ∃ r, t = p ++ r) := by
  induction p with
  | nil =>
    intro t _
    rw [List.nil_append]
    constructor
    · intro _
      exact ⟨t, by rw [List.nil_append]⟩
    · intro _
      exact likeMatch_percent_end t
  | cons c p' ih =>
    intro t hp
    obtain ⟨hc1, hc2, hc3⟩ := hp c (List.mem_cons_self c p')
    have hp' : ∀ x ∈ p', x ≠ '%' ∧ x ≠ '_' ∧ x ≠ '\\' :=
      fun x hx => hp x (List.mem_cons_of_mem c hx)
    cases t with
    | nil =>
      rw [List.cons_append, likeMatch_cons_plain_nil hc1 hc2 hc3]
      simp
    | cons c' ts =>
      rw [List.cons_append, likeMatch_cons_plain_cons hc1 hc2 hc3]
      rw [Bool.and_eq_true, beq_iff_eq]
      constructor
      · rintro ⟨hcc, hm⟩
        obtain ⟨r, hr⟩ := (ih ts hp').mp hm
        exact ⟨r, by rw [hcc, hr, List.cons_append]⟩
      · rintro ⟨r, hr⟩
        rw [List.cons_append, List.cons.injEq] at hr
        exact ⟨hr.1, (ih ts hp').mpr ⟨r, hr.2⟩⟩

theorem likeMatch_user_pattern (u : String)
    (hplain : ∀ c ∈ u.data, c ≠ '%' ∧ c ≠ '_' ∧ c ≠ '\\') (t : String) :
    (likeMatch (u ++ ":%").data t.data = true
      ↔ ∃ r, t.data = u.data ++ ':' :: r) := by
  have hdata : (u ++ ":%").data = (u.data ++ [':']) ++ ['%'] := by
    rw [String.data_append]
    simp [show (":%" : String).data = [':', '%'] from rfl]
  have hpl : ∀ c ∈ u.data ++ [':'], c ≠ '%' ∧ c ≠ '_' ∧ c ≠ '\\' := by
    intro c hc
    rcases List.mem_append.mp hc with h | h
    · exact hplain c h
    · have : c = ':' := by simpa using h
      subst this
      exact ⟨by decide, by decide, by decide⟩
  rw [hdata, likeMatch_plain_then_any _ t.data hpl]
  constructor
  · rintro ⟨r, hr⟩
    exact ⟨r, by simpa [List.append_assoc] using hr⟩
  · rintro ⟨r, hr⟩
    exact ⟨r, by simpa [List.append_assoc] using hr⟩

/-! ## Session-listing lemmas -/

theorem sessionFromThread_unique_id (storageUp : Bool) (st : Store)
    (u s' : String)
    (hu : containsSeq ": ".data u.data = false)
    (hs : containsSeq ": ".data s'.data = false) :
    sessionFromThread storageUp st u (unique_id u s')
      = some ⟨s',
          match (get_conversation_history storageUp st u s')[0]? with
          | none => Content.text "New chat"
          | some h => sliceTo50 h.content⟩ := by
  unfold sessionFromThread
  rw [unique_id_data, splitCS_append _ _ hu, splitCS_nosep _ hs]
  rfl

theorem buildSessions_some (storageUp : Bool) (st : Store) (u : String) :
    ∀ ts : List String,
      (∀ t ∈ ts, (sessionFromThread storageUp st u t).isSome = true) →
      ∃ l, buildSessions storageUp st u ts = some l
        ∧ (∀ t ∈ ts, ∃ e ∈ l, sessionFromThread storageUp st u t = some e)
        ∧ (∀ e ∈ l, ∃ t ∈ ts, sessionFromThread storageUp st u t = some e) := by
  intro ts
  induction ts with
  | nil => exact fun _ => ⟨[], rfl, by simp, by simp⟩
  | cons t ts' ih =>
    intro h
    obtain ⟨e, he⟩ :=
      Option.isSome_iff_exists.mp (h t (List.mem_cons_self t ts'))
    obtain ⟨l, hl, hfwd, hbwd⟩ :=
      ih (fun x hx => h x (List.mem_cons_of_mem t hx))
    refine ⟨e :: l, ?_, ?_, ?_⟩
    · rw [buildSessions, he, hl]
      rfl
    · intro x hx
      rcases List.mem_cons.mp hx with rfl | hx'
      · exact ⟨e, List.mem_cons_self e l, he⟩
      · obtain ⟨e', he'l, he'⟩ := hfwd x hx'
        exact ⟨e', List.mem_cons_of_mem e he'l, he'⟩
    · intro e' he'
      rcases List.mem_cons.mp he' with rfl | he'l
      · exact ⟨t, List.mem_cons_self t ts', he⟩
      · obtain ⟨x, hx, hxe⟩ := hbwd e' he'l
        exact ⟨x, List.mem_cons_of_mem t hx, hxe⟩

theorem get_all_user_sessions_eq (st : Store) (u : String)
    {l : List SessionEntry}
    (h : buildSessions true st u (((st.map Prod.fst).dedup).filter
          (fun t => likeMatch (u ++ ":%").data t.data)) = some l) :
    get_all_user_sessions true st u = l := by
  unfold get_all_user_sessions
  rw [if_pos rfl]
  simp only [h]

/-! ## Claim C6 - session-listing round trip and isolation -/

/-- C6 (counterexample): after a completed turn for user `u` and session
`a: b`, the listing for `u` is the single entry with session id `a` - no
entry has session id exactly `a: b`, so the round trip fails. -/
theorem C6_counterexample :
    get_all_user_sessions true (chat_with_agent true llmOk [] "u" "a: b" "x").2 "u"
      = [⟨"a", Content.text "New chat"⟩]
    ∧ ("a" : String) ≠ "a: b" := by
  decide

/-- C6 (amended): provided the user id contains no colon and no SQL wildcard
character, and every stored thread id is composed from a colon-free user id
and a separator-free session id, the session listing round-trips - for every
session s of user u present in the store, the listing contains an entry whose
session id is exactly s - and is isolated - every listed entry is derived
from a thread id of user u present in the store. -/
theorem C6_session_listing
    (st : Store) (u : String)
    (huc : ':' ∉ u.data)
    (hup : ∀ c ∈ u.data, c ≠ '%' ∧ c ≠ '_' ∧ c ≠ '\\')
    (hkeys : ∀ t ∈ st.map Prod.fst, ∃ u' s', t = unique_id u' s'
        ∧ ':' ∉ u'.data ∧ containsSeq ": ".data s'.data = false) :
    (∀ s : String, unique_id u s ∈ st.map Prod.fst →
        ∃ e ∈ get_all_user_sessions true st u, e.session_id = s)
    ∧ ∀ e ∈ get_all_user_sessions true st u,
        unique_id u e.session_id ∈ st.map Prod.fst := by
  have hmatched : ∀ t ∈ ((st.map Prod.fst).dedup).filter
      (fun t => likeMatch (u ++ ":%").data t.data),
      ∃ s', containsSeq ": ".data s'.data = false ∧ t = unique_id u s' := by
    intro t ht
    have hmem : t ∈ st.map Prod.fst :=
      List.mem_dedup.mp (List.mem_filter.mp ht).1
    have hlike : likeMatch (u ++ ":%").data t.data = true :=
      (List.mem_filter.mp ht).2
    obtain ⟨u', s', rfl, hu'c, hs'⟩ := hkeys t hmem
    obtain ⟨r, hr⟩ := (likeMatch_user_pattern u hup _).mp hlike
    rw [unique_id_data] at hr
    obtain ⟨huu, -⟩ := colon_split hu'c huc hr
    refine ⟨s', hs', ?_⟩
    rw [String.ext huu]
  have hsome : ∀ t ∈ ((st.map Prod.fst).dedup).filter
      (fun t => likeMatch (u ++ ":%").data t.data),
      (sessionFromThread true st u t).isSome = true := by
    intro t ht
    obtain ⟨s', hs', rfl⟩ := hmatched t ht
    rw [sessionFromThread_unique_id true st u s' (nosep_of_nocolon huc) hs']
    rfl
  obtain ⟨l, hl, hfwd, hbwd⟩ := buildSessions_some true st u _ hsome
  have hall : get_all_user_sessions true st u = l :=
    get_all_user_sessions_eq st u hl
  refine ⟨?_, ?_⟩
  · intro s hmem
    obtain ⟨u', s'', heq, hu'c, hs''⟩ := hkeys _ hmem
    have hd := congrArg String.data heq
    rw [unique_id_data, unique_id_data] at hd
    obtain ⟨-, htail⟩ := colon_split huc hu'c hd
    have hsdata : s.data = s''.data := congrArg List.tail htail
    have hs : containsSeq ": ".data s.data = false := by
      rw [hsdata]; exact hs''
    have htid : unique_id u s ∈ ((st.map Prod.fst).dedup).filter
        (fun t => likeMatch (u ++ ":%").data t.data) := by
      refine List.mem_filter.mpr ⟨List.mem_dedup.mpr hmem, ?_⟩
      exact (likeMatch_user_pattern u hup _).mpr
        ⟨' ' :: s.data, by rw [unique_id_data]⟩
    obtain ⟨e, hel, he⟩ := hfwd _ htid
    rw [sessionFromThread_unique_id true st u s (nosep_of_nocolon huc) hs] at he
    refine ⟨e, by rw [hall]; exact hel, ?_⟩
    rw [← Option.some.inj he]
  · intro e he
    rw [hall] at he
    obtain ⟨t, ht, hte⟩ := hbwd e he
    obtain ⟨s', hs', rfl⟩ := hmatched t ht
    rw [sessionFromThread_unique_id true st u s'
          (nosep_of_nocolon huc) hs'] at hte
    have hsid : e.session_id = s' := by rw [← Option.some.inj hte]
    rw [hsid]
    exact List.mem_dedup.mp (List.mem_filter.mp ht).1

/-- The one-turn store `stGood` is composed of well-formed thread ids. -/
theorem stGood_keys : ∀ t ∈ stGood.map Prod.fst, ∃ u' s', t = unique_id u' s'
    ∧ ':' ∉ u'.data ∧ containsSeq ": ".data s'.data = false := by
  intro t ht
  have : t = "u: s" := by simpa [stGood] using ht
  subst this
  exact ⟨"u", "s", by decide, by decide, by decide⟩

/-- C6 (witness for the amended theorem at a concrete input). -/
theorem C6_witness :
    unique_id "u" (SessionEntry.mk "s" (Content.text "hello")).session_id
      ∈ stGood.map Prod.fst :=
  (C6_session_listing stGood "u" (by decide) (by decide) stGood_keys).2
    ⟨"s", Content.text "hello"⟩ (by decide)

/-! ## Claim C5 - history projection -/

theorem projectLoop_eq (msgs : List Msg)
    (h : ∀ m ∈ msgs, m.role = Role.assistant →
        (histNormalize m.content).isSome = true) :
    projectLoop msgs = some (msgs.filterMap projEntry) := by
  induction msgs with
  | nil => rfl
  | cons m ms ih =>
    have hm := h m (List.mem_cons_self m ms)
    have hms : ∀ x ∈ ms, x.role = Role.assistant →
        (histNormalize x.content).isSome = true :=
      fun x hx => h x (List.mem_cons_of_mem m hx)
    cases hrole : m.role with
    | user =>
      simp [projectLoop, hrole, ih hms, List.filterMap_cons, projEntry]
    | assistant =>
      obtain ⟨t, ht⟩ := Option.isSome_iff_exists.mp (hm hrole)
      simp [projectLoop, hrole, ht, ih hms, List.filterMap_cons, projEntry]
    | system =>
      simp [projectLoop, hrole, ih hms, List.filterMap_cons, projEntry]

/-- C5 (counterexample): the thread of `stCrash` holds a user message and an
assistant message, and the claim's per-message mapping yields a non-empty
transcript, yet the projector returns the empty list (the assistant
message's flattening raises and the whole transcript is discarded). -/
theorem C5_counterexample :
    get_conversation_history true stCrash "u" "s" = []
    ∧ loadThread stCrash (unique_id "u" "s") ≠ []
    ∧ (loadThread stCrash (unique_id "u" "s")).filterMap projEntry
        = [⟨"user", Content.text "hello"⟩] := by
  decide

/-- C5 (amended): provided the flattening succeeds on every assistant
message of the thread (no content list contains a plain-string part with
`text` as a substring), the History Projector maps every stored message in
original order - user messages to role `user` with content verbatim,
assistant messages to role `ai` with content flattened to a single string,
system messages skipped - returning the entire thread with no pagination. -/
theorem C5_projection (st : Store) (u s : String)
    (h : ∀ m ∈ loadThread st (unique_id u s), m.role = Role.assistant →
        (histNormalize m.content).isSome = true) :
    get_conversation_history true st u s
      = (loadThread st (unique_id u s)).filterMap projEntry := by
  unfold get_conversation_history
  rw [if_pos rfl, projectLoop_eq _ h]

/-- C5 (witness for the amended theorem at a concrete input). -/
theorem C5_witness :
    get_conversation_history true stGood "u" "s"
      = (loadThread stGood (unique_id "u" "s")).filterMap projEntry :=
  C5_projection stGood "u" "s" (by decide)

/-! ## Claim C8 - session previews -/

theorem mem_buildSessions {storageUp : Bool} {st : Store} {u : String} :
    ∀ {ts : List String} {l : List SessionEntry},
      buildSessions storageUp st u ts = some l →
      ∀ e ∈ l, ∃ t, sessionFromThread storageUp st u t = some e := by
  intro ts
  induction ts with
  | nil =>
    intro l hl e he
    rw [buildSessions] at hl
    cases hl
    simp at he
  | cons t ts' ih =>
    intro l hl e he
    rw [buildSessions] at hl
    cases hs : sessionFromThread storageUp st u t with
    | none => rw [hs] at hl; cases hl
    | some e0 =>
      rw [hs] at hl
      cases hb : buildSessions storageUp st u ts' with
      | none => rw [hb] at hl; cases hl
      | some l' =>
        rw [hb] at hl
        simp only [Option.map_some] at hl
        cases hl
        rcases List.mem_cons.mp he with rfl | he'
        · exact ⟨t, hs⟩
        · exact ih hb e he'

theorem sessionFromThread_shape {storageUp : Bool} {st : Store} {u t : String}
    {e : SessionEntry}
    (h : sessionFromThread storageUp st u t = some e) :
    (e.preview = Content.text "New chat"
       ∧ get_conversation_history storageUp st u e.session_id = [])
    ∨ ∃ h0 hs, get_conversation_history storageUp st u e.session_id = h0 :: hs
        ∧ e.preview = sliceTo50 h0.content := by
  unfold sessionFromThread at h
  cases hsid : (splitCS t.data)[1]? with
  | none => rw [hsid] at h; cases h
  | some sid =>
    rw [hsid] at h
    have h' := Option.some.inj h
    cases hlist : get_conversation_history storageUp st u (String.mk sid) with
    | nil =>
      rw [hlist] at h'
      simp only [List.getElem?_nil] at h'
      cases h'
      left
      exact ⟨rfl, hlist⟩
    | cons h0 hs =>
      rw [hlist] at h'
      simp only [List.getElem?_cons_zero] at h'
      cases h'
      right
      exact ⟨h0, hs, hlist, rfl⟩

/-- C8 (counterexample): the thread of `stCrash` has messages, its first
user message's content is `hello`, yet the listed preview for it is the
literal `New chat` (the projection fails, and the claim says `New chat`
appears only when the thread has no messages). -/
theorem C8_counterexample :
    get_all_user_sessions true stCrash "u"
      = [⟨"s", Content.text "New chat"⟩]
    ∧ loadThread stCrash (unique_id "u" "s") ≠ []
    ∧ (loadThread stCrash (unique_id "u" "s")).head?.map Msg.content
        = some (Content.text "hello")
    ∧ Content.text "New chat" ≠ Content.text "hello" := by
  decide

/-- C8 (amended): for every listed session, the preview equals the literal
`New chat` exactly when the thread's projected history is empty (including
when the projection fails), and otherwise equals the first projected entry's
content truncated to 50; in particular every string preview has length at
most 50 characters. -/
theorem C8_preview (st : Store) (u : String) (e : SessionEntry)
    (he : e ∈ get_all_user_sessions true st u) :
    ((e.preview = Content.text "New chat"
        ∧ get_conversation_history true st u e.session_id = [])
      ∨ ∃ h0 hs, get_conversation_history true st u e.session_id = h0 :: hs
          ∧ e.preview = sliceTo50 h0.content)
    ∧ ∀ str : String, e.preview = Content.text str → str.data.length ≤ 50 := by
  have hex : ∃ t, sessionFromThread true st u t = some e := by
    unfold get_all_user_sessions at he
    rw [if_pos rfl] at he
    cases hb : buildSessions true st u (((st.map Prod.fst).dedup).filter
        (fun t => likeMatch (u ++ ":%").data t.data)) with
    | none => rw [hb] at he; simp at he
    | some l =>
      rw [hb] at he
      exact mem_buildSessions hb e he
  obtain ⟨t, ht⟩ := hex
  have hshape := sessionFromThread_shape ht
  refine ⟨hshape, ?_⟩
  intro str hstr
  rcases hshape with ⟨hp, -⟩ | ⟨h0, hs, -, hp⟩
  · rw [hp] at hstr
    cases Content.text.inj hstr
    decide
  · rw [hp] at hstr
    cases hc : h0.content with
    | text s =>
      rw [hc] at hstr
      simp only [sliceTo50] at hstr
      cases Content.text.inj hstr
      show (String.mk (s.data.take 50)).data.length ≤ 50
      simp [List.length_take]
    | parts l =>
      rw [hc] at hstr
      simp [sliceTo50] at hstr

/-- C8 (witness for the amended theorem at a concrete input). -/
theorem C8_witness : ("hello" : String).data.length ≤ 50 :=
  (C8_preview stGood "u" ⟨"s", Content.text "hello"⟩ (by decide)).2 "hello" rfl

end Recto
